import Mathlib

/-!
Shallow embedding of the TODO-to-Action decision engine of the
GitHub_Copilot_TODOMCP repository, together with proofs checking the
natural-language specification against the code.

Conventions of the embedding:
* JavaScript numbers appearing as confidence values and thresholds are
  modelled in hundredths as naturals (`Conf`): the source's 0.85 is 85
  here.  Every such constant in the source (0.3, 0.5, 0.7, 0.8, 0.85,
  0.9, ...) is an exact multiple of 0.01, these literals are only
  compared with each other, and their order as IEEE doubles agrees
  with their order as scaled integers, so no behaviour covered by the
  claims depends on float rounding.
* JavaScript falsiness (`x || d`) on numbers and strings is modelled
  explicitly by `jsOrQ` / `jsOrS` / `jsOrN` below.
* External collaborators (the regex engine, the syntax validator, git)
  are parameters of the definitions that call them; the code around
  them is translated directly from the source.
* Timestamps (`Date.now()`) are modelled by a logical clock carried in
  the state; `uuid`, logging and the replay recorder are omitted as no
  claim mentions them.
-/

set_option maxHeartbeats 1600000

namespace TodoMcp

/-- Confidence values and thresholds, in hundredths (0.85 ↦ 85). -/
abbrev Conf := Nat

/-- JS `x || d` for an optional number: `undefined` and `0` are falsy. -/
def jsOrQ (x : Option Conf) (d : Conf) : Conf :=
  match x with
  | none => d
  | some v => if v = 0 then d else v

/-- JS `x || d` for an optional string: `undefined` and `""` are falsy. -/
def jsOrS (x : Option String) (d : String) : String :=
  match x with
  | none => d
  | some v => if v = "" then d else v

/-- JS `x || d` for an optional natural number: `undefined` and `0` are falsy. -/
def jsOrN (x : Option Nat) (d : Nat) : Nat :=
  match x with
  | none => d
  | some v => if v = 0 then d else v

/-- `String.prototype.startsWith`, spelled out on character lists (the
built-in `String.startsWith` is byte-position based and does not reduce
inside the kernel). -/
def jsStartsWith (s pat : String) : Bool :=
  go s.data pat.data
where
  go : List Char → List Char → Bool
  | _, [] => true
  | [], _ :: _ => false
  | c :: cs, d :: ds => (c = d) && go cs ds

/-! ## Action model (src/models/Action.ts, embedded from part_008) -/

/-- `ActionType` from src/models/Action.ts. -/
inductive ActionTy where
  | addComment
  | fixFormatting
  | updateDocumentation
  | addImport
  | renameVariable
  | implementFunction
  | removeUnusedImportsTy
  | removeUnusedVariablesTy
  deriving DecidableEq, Repr

/-- `ActionStatus` from src/models/Action.ts. -/
inductive ActionSt where
  | pending
  | executing
  | completed
  | failed
  | skipped
  | requiresApproval
  deriving DecidableEq, Repr

/-- Risk level of a pattern. -/
inductive Risk where
  | low
  | medium
  | high
  deriving DecidableEq, Repr

/-! ## SafePatterns (src/patterns/SafePatterns.ts)

The regexes themselves are external to the embedding: `analyzePattern`
is parameterised by the result of `todoContent.match(pattern.regex)`,
an oracle mapping each pattern to `none` (no match) or the list of its
captured groups (`none` entries are groups that did not participate). -/

/-- `SafePattern` record (regex omitted; it lives behind the match oracle). -/
structure SafePattern where
  id : String
  name : String
  confidence : Conf
  riskLevel : Risk
  actionType : ActionTy
  autoApprove : Bool
  extractGroups : List String
  deriving DecidableEq, Repr

/-- `PatternMatch` record. -/
structure PatternMatch where
  pattern : SafePattern
  confidence : Conf
  actionType : ActionTy
  extractedData : List (String × String)
  riskLevel : Risk
  deriving DecidableEq, Repr

/-- The static `SAFE_PATTERNS` table, in declaration order. -/
def SAFE_PATTERNS : List SafePattern :=
  [ { id := "add-comment", name := "Add Comment", confidence := 90,
      riskLevel := .low, actionType := .addComment, autoApprove := true,
      extractGroups := ["description"] },
    { id := "fix-formatting", name := "Fix Formatting", confidence := 85,
      riskLevel := .low, actionType := .fixFormatting, autoApprove := true,
      extractGroups := [] },
    { id := "update-documentation", name := "Update Documentation", confidence := 80,
      riskLevel := .low, actionType := .updateDocumentation, autoApprove := true,
      extractGroups := ["target"] },
    { id := "rename-variable", name := "Rename Variable", confidence := 90,
      riskLevel := .low, actionType := .renameVariable, autoApprove := true,
      extractGroups := ["oldName", "newName"] },
    { id := "implement-function", name := "Implement Function", confidence := 80,
      riskLevel := .medium, actionType := .implementFunction, autoApprove := false,
      extractGroups := ["functionName"] },
    { id := "add-import", name := "Add Import", confidence := 70,
      riskLevel := .medium, actionType := .addImport, autoApprove := false,
      extractGroups := ["module", "source"] },
    { id := "remove-unused-imports", name := "Remove Unused Imports", confidence := 85,
      riskLevel := .low, actionType := .removeUnusedImportsTy, autoApprove := true,
      extractGroups := [] },
    { id := "remove-unused-variables", name := "Remove Unused Variables", confidence := 80,
      riskLevel := .low, actionType := .removeUnusedVariablesTy, autoApprove := true,
      extractGroups := [] } ]

/-- `extractGroups.forEach((group, index) => extractedData[group] = match[index+1] || '')`:
pull the named groups positionally from the regex result, defaulting to `""`. -/
def buildExtractedData (groups : List String) (captured : List (Option String)) :
    List (String × String) :=
  (groups.enum).map fun gi =>
    (gi.2, jsOrS (captured.getD gi.1 none) "")

/-- `SafePatternMatcher.analyzePattern`: evaluate every pattern of the table
against the TODO content (via the regex oracle `rmatch`), in declaration
order, producing one `PatternMatch` per matching pattern. -/
def analyzePattern (patterns : List SafePattern)
    (rmatch : SafePattern → Option (List (Option String))) : List PatternMatch :=
  patterns.filterMap fun p =>
    (rmatch p).map fun captured =>
      { pattern := p
        confidence := p.confidence
        actionType := p.actionType
        extractedData := buildExtractedData p.extractGroups captured
        riskLevel := p.riskLevel }

/-- The JS `reduce((best, current) => current.confidence > best.confidence ? current : best)`
step shared by `SafePatternMatcher.findBestMatch` and
`AutoContinueService.selectBestMatch`. -/
def pickBetter (best current : PatternMatch) : PatternMatch :=
  if best.confidence < current.confidence then current else best

/-- `SafePatternMatcher.findBestMatch`: `null` on an empty match list, else
the reduce above (which keeps the first of equal-confidence maxima). -/
def findBestMatch (patterns : List SafePattern)
    (rmatch : SafePattern → Option (List (Option String))) : Option PatternMatch :=
  match analyzePattern patterns rmatch with
  | [] => none
  | m :: ms => some (ms.foldl pickBetter m)

/-- `AutoContinueService.selectBestMatch`: same reduce applied to an
already-computed match list. -/
def selectBestMatch (ml : List PatternMatch) : Option PatternMatch :=
  match ml with
  | [] => none
  | m :: ms => some (ms.foldl pickBetter m)

/-! ## SessionStorage (src/storage/SessionStorage.ts, embedded from part_006) -/

/-- Session status. -/
inductive SessionSt where
  | active
  | completed
  | failed
  | paused
  | cancelled
  deriving DecidableEq, Repr

/-- An Action as stored in a session's action list.  Only the fields the
claims consult are carried; the remaining fields of src/models/Action.ts
(timestamps, execution record, checksums) do not affect any claim. -/
structure StoredAction where
  id : String
  deriving DecidableEq, Repr

/-- `SessionMetrics` from SessionStorage.ts. -/
structure SessionMetrics where
  totalActions : Nat
  completedActions : Nat
  failedActions : Nat
  skippedActions : Nat
  averageConfidence : Conf
  totalTimeSaved : Nat
  riskLow : Nat
  riskMedium : Nat
  riskHigh : Nat
  deriving DecidableEq, Repr

/-- `SessionConfig` from SessionStorage.ts. -/
structure SessionConfig where
  maxActions : Nat
  timeoutMinutes : Nat
  autoApproveThreshold : Conf
  enableBackups : Bool
  patternsEnabled : List String
  patternsDisabled : List String
  deriving DecidableEq, Repr

/-- `Partial<SessionConfig>`: every field optional, spread over the defaults. -/
structure SessionConfigPartial where
  maxActions : Option Nat := none
  timeoutMinutes : Option Nat := none
  autoApproveThreshold : Option Conf := none
  enableBackups : Option Bool := none
  patternsEnabled : Option (List String) := none
  patternsDisabled : Option (List String) := none
  deriving Repr

/-- `Session` record. -/
structure Session where
  id : String
  status : SessionSt
  workspacePath : String
  actions : List StoredAction
  config : SessionConfig
  metrics : SessionMetrics
  deriving DecidableEq, Repr

/-- The `defaultConfig` literal of `SessionStorage.createSession`. -/
def defaultSessionConfig : SessionConfig :=
  { maxActions := 10
    timeoutMinutes := 60
    autoApproveThreshold := 80
    enableBackups := true
    patternsEnabled := []
    patternsDisabled := [] }

/-- `{ ...defaultConfig, ...config }`. -/
def mergeSessionConfig (c : SessionConfigPartial) : SessionConfig :=
  { maxActions := c.maxActions.getD defaultSessionConfig.maxActions
    timeoutMinutes := c.timeoutMinutes.getD defaultSessionConfig.timeoutMinutes
    autoApproveThreshold := c.autoApproveThreshold.getD defaultSessionConfig.autoApproveThreshold
    enableBackups := c.enableBackups.getD defaultSessionConfig.enableBackups
    patternsEnabled := c.patternsEnabled.getD defaultSessionConfig.patternsEnabled
    patternsDisabled := c.patternsDisabled.getD defaultSessionConfig.patternsDisabled }

/-- `SessionStorage.createSession` (the `uuid` and start time are external;
the fresh id is passed in).  Initialises an empty action list and
all-zero metrics, then saves the session. -/
def createSession (id workspacePath : String) (config : SessionConfigPartial) : Session :=
  { id := id
    status := .active
    workspacePath := workspacePath
    actions := []
    config := mergeSessionConfig config
    metrics :=
      { totalActions := 0
        completedActions := 0
        failedActions := 0
        skippedActions := 0
        averageConfidence := 0
        totalTimeSaved := 0
        riskLow := 0
        riskMedium := 0
        riskHigh := 0 } }

/-- The on-disk session store: one JSON document per session id. -/
def Store := List (String × Session)

/-- `getSession`: read `<id>.json` if it exists. -/
def getSession (st : Store) (sessionId : String) : Option Session :=
  (List.lookup sessionId st)

/-- `saveSession` / `updateSession`: overwrite `<id>.json`. -/
def saveSession (st : Store) (s : Session) : Store :=
  (s.id, s) :: (st : List (String × Session)).filter (fun p => p.1 ≠ s.id)

/-- The in-memory mutation performed by `SessionStorage.addAction`:
`session.actions.push(action)`.  Note that `metrics` is untouched. -/
def sessionPushAction (s : Session) (a : StoredAction) : Session :=
  { s with actions := s.actions ++ [a] }

/-- `SessionStorage.addAction`: load the session, push the action, save. -/
def addAction (st : Store) (sessionId : String) (a : StoredAction) : Store :=
  match getSession st sessionId with
  | none => st
  | some s => saveSession st (sessionPushAction s a)

/-! ## First-maximum characterisation of the `reduce` used by
`findBestMatch` / `selectBestMatch` (claim C4) -/

/-- `b` is the first element of `l` attaining the maximal confidence:
it occurs at an index `i`, everything strictly before `i` has strictly
smaller confidence, and nothing in `l` exceeds it. -/
def isFirstMax (l : List PatternMatch) (b : PatternMatch) : Prop :=
  ∃ i, l.get? i = some b ∧
    (∀ j, j < i → ∀ m, l.get? j = some m → m.confidence < b.confidence) ∧
    ∀ m ∈ l, m.confidence ≤ b.confidence

theorem foldl_pickBetter_firstMax (ms : List PatternMatch) :
    ∀ m : PatternMatch, isFirstMax (m :: ms) (ms.foldl pickBetter m) := by
  induction ms with
  | nil =>
      intro m
      refine ⟨0, rfl, ?_, ?_⟩
      · intro j hj x hx
        exact absurd hj (Nat.not_lt_zero j)
      · intro x hx
        rcases List.mem_singleton.mp hx with rfl
        exact le_refl _
  | cons cur rest ih =>
      intro m
      show isFirstMax (m :: cur :: rest) (rest.foldl pickBetter (pickBetter m cur))
      by_cases h : m.confidence < cur.confidence
      · -- `pickBetter m cur = cur`; shift the witness index by one.
        have hp : pickBetter m cur = cur := by simp [pickBetter, h]
        rw [hp]
        rcases ih cur with ⟨i, hi, hpre, hmax⟩
        have hcur_le : cur.confidence ≤ (rest.foldl pickBetter cur).confidence :=
          hmax cur (List.mem_cons_self _ _)
        refine ⟨i + 1, hi, ?_, ?_⟩
        · intro j hj x hx
          match j, hj, hx with
          | 0, hj, hx =>
              have hxm : m = x := by simpa using hx
              subst hxm
              exact lt_of_lt_of_le h hcur_le
          | j' + 1, hj, hx =>
              exact hpre j' (Nat.lt_of_succ_lt_succ hj) x hx
        · intro x hx
          rcases List.mem_cons.mp hx with rfl | hx'
          · exact le_of_lt (lt_of_lt_of_le h hcur_le)
          · exact hmax x hx'
      · -- `pickBetter m cur = m`; the inserted `cur` is dominated by `m`.
        have hp : pickBetter m cur = m := by simp [pickBetter, h]
        rw [hp]
        rcases ih m with ⟨i, hi, hpre, hmax⟩
        have hcur_le_m : cur.confidence ≤ m.confidence := not_lt.mp h
        have hm_le : m.confidence ≤ (rest.foldl pickBetter m).confidence :=
          hmax m (List.mem_cons_self _ _)
        match i, hi with
        | 0, hi =>
            refine ⟨0, by simpa using hi, ?_, ?_⟩
            · intro j hj x hx
              exact absurd hj (Nat.not_lt_zero j)
            · intro x hx
              rcases List.mem_cons.mp hx with rfl | hx'
              · exact hmax x (List.mem_cons_self _ _)
              · rcases List.mem_cons.mp hx' with rfl | hx''
                · exact le_trans hcur_le_m hm_le
                · exact hmax x (List.mem_cons_of_mem _ hx'')
        | k + 1, hi =>
            -- the first maximum sits inside `rest`
            have hm_lt : m.confidence < (rest.foldl pickBetter m).confidence :=
              hpre 0 (Nat.succ_pos k) m rfl
            refine ⟨k + 2, hi, ?_, ?_⟩
            · intro j hj x hx
              match j, hj, hx with
              | 0, hj, hx =>
                  have hxm : m = x := by simpa using hx
                  subst hxm
                  exact hm_lt
              | 1, hj, hx =>
                  have hxc : cur = x := by simpa using hx
                  subst hxc
                  exact lt_of_le_of_lt hcur_le_m hm_lt
              | j' + 2, hj, hx =>
                  exact hpre (j' + 1) (by omega) x hx
            · intro x hx
              rcases List.mem_cons.mp hx with rfl | hx'
              · exact hmax x (List.mem_cons_self _ _)
              · rcases List.mem_cons.mp hx' with rfl | hx''
                · exact le_trans hcur_le_m hm_le
                · exact hmax x (List.mem_cons_of_mem _ hx'')

/-! ## Claim theorems: C4 and C1 -/

/-- C4: for every pattern table `SAFE_PATTERNS ++ custom` (the constructor
spreads the static table before the custom patterns) and every outcome of
the regex engine, `findBestMatch` returns `null` exactly when
`analyzePattern` returns no matches, and otherwise returns the first
match of maximal confidence in the list returned by `analyzePattern`,
which is in pattern declaration order. -/
theorem findBestMatch_first_max (custom : List SafePattern)
    (rmatch : SafePattern → Option (List (Option String))) :
    (findBestMatch (SAFE_PATTERNS ++ custom) rmatch = none ↔
      analyzePattern (SAFE_PATTERNS ++ custom) rmatch = []) ∧
    (∀ b, findBestMatch (SAFE_PATTERNS ++ custom) rmatch = some b →
      isFirstMax (analyzePattern (SAFE_PATTERNS ++ custom) rmatch) b) := by
  constructor
  · unfold findBestMatch
    cases h : analyzePattern (SAFE_PATTERNS ++ custom) rmatch with
    | nil => simp
    | cons m ms => simp
  · intro b hb
    unfold findBestMatch at hb
    revert hb
    cases h : analyzePattern (SAFE_PATTERNS ++ custom) rmatch with
    | nil => intro hb; exact absurd hb (by simp)
    | cons m ms =>
        intro hb
        have hb' : ms.foldl pickBetter m = b := by
          simpa using hb
        rw [← hb']
        exact foldl_pickBetter_firstMax ms m

/-- A concrete regex-engine outcome used to witness C4: the TODO content
matches the fix-formatting and update-documentation patterns only. -/
def rmatchFixDoc (p : SafePattern) : Option (List (Option String)) :=
  if p.id = "fix-formatting" then some []
  else if p.id = "update-documentation" then some [none]
  else none

/-- The fix-formatting match produced by `analyzePattern` under `rmatchFixDoc`. -/
def fixFormattingMatch : PatternMatch :=
  { pattern :=
      { id := "fix-formatting", name := "Fix Formatting", confidence := 85,
        riskLevel := .low, actionType := .fixFormatting, autoApprove := true,
        extractGroups := [] }
    confidence := 85
    actionType := .fixFormatting
    extractedData := []
    riskLevel := .low }

/-- Witness for C4 at a concrete input: with two matching patterns
(confidences 0.85 and 0.8) the best match is the fix-formatting one and
it is the first maximum of the analysis list. -/
theorem findBestMatch_first_max_witness :
    isFirstMax (analyzePattern (SAFE_PATTERNS ++ []) rmatchFixDoc) fixFormattingMatch :=
  (findBestMatch_first_max [] rmatchFixDoc).2 fixFormattingMatch (by decide)

/-- C1 counterexample: create a session, add one action through
`SessionStorage.addAction`; the persisted record then has
`metrics.totalActions = 0` but one action in `actions`, so the claimed
invariant `metrics.totalActions = len(actions)` does not survive
`addAction`. -/
theorem addAction_breaks_totalActions :
    (getSession
        (addAction (saveSession [] (createSession "s1" "/w" {})) "s1" { id := "a1" })
        "s1").map (fun s => (s.metrics.totalActions, s.actions.length)) =
      some (0, 1) := by
  decide

/-- C1 amended: `createSession` establishes `metrics.totalActions =
len(actions)` (both zero), and `addAction` appends exactly one action
while leaving the metrics record — in particular `totalActions` —
unchanged; the equality is therefore not preserved by `addAction`. -/
theorem addAction_appends_without_metrics (s : Session) (a : StoredAction)
    (id wp : String) (cfg : SessionConfigPartial) :
    (sessionPushAction s a).actions.length = s.actions.length + 1 ∧
    (sessionPushAction s a).metrics = s.metrics ∧
    (createSession id wp cfg).metrics.totalActions =
      (createSession id wp cfg).actions.length := by
  refine ⟨by simp [sessionPushAction], rfl, rfl⟩

/-! ## UnusedVariableAnalyzer (src/utils/unusedVariableAnalyzer.ts, part_009)

The analyzer walks a TypeScript syntax tree.  The embedding represents
the tree shapes the analyzer inspects: variable declarations, named
function/class declarations, method declarations, (arrow) function
parameters, property assignments, identifier references, and a catch-all
node.  Declaration-name positions are structure fields rather than child
identifier nodes, which encodes exactly the `parent.name === node` tests
of `isDeclarationContext` / the declaration harvesting. -/

/-- Variable kinds reported by the analyzer. -/
inductive VarKind where
  | variableKind
  | functionKind
  | parameterKind
  | classKind
  deriving DecidableEq, Repr

/-- An `UnusedVariable` analysis record.  `line`/`column` are source
positions that no claim consults and are omitted. -/
structure UnusedVariable where
  name : String
  kind : VarKind
  scope : String
  deriving DecidableEq, Repr

mutual

/-- Syntax-tree fragment for the variable analyzer. -/
inductive VNode where
  | varDecl (name : String) (init : VForest)
  | funcDecl (name : Option String) (params : List String) (body : VForest)
  | classDecl (name : Option String) (members : VForest)
  | methodDecl (name : String) (params : List String) (body : VForest)
  | arrowFunc (params : List String) (body : VForest)
  | identRef (name : String)
  | propAssign (key : String) (value : VForest)
  | otherNode (children : VForest)

/-- A list of sibling nodes (the children visited by `ts.forEachChild`). -/
inductive VForest where
  | nil
  | cons (hd : VNode) (tl : VForest)

end

/-- `getScopeName`: the dotted path of enclosing named function / class /
method declarations, rooted at the `"global"` sentinel. -/
def scopeStr (path : List String) : String :=
  String.intercalate "." path

mutual

/-- `findDeclaredVariables`, with the ancestor scope path passed down the
recursion (the source recovers it per node by walking parents).  Arrow
function parameters are harvested twice, once by the `isParameter` visit
of each parameter node and once by the dedicated `isArrowFunction`
branch, exactly as in the source. -/
def declaredOf (path : List String) : VNode → List UnusedVariable
  | .varDecl name init =>
      { name := name, kind := .variableKind, scope := scopeStr path } ::
        declaredOfF path init
  | .funcDecl name params body =>
      let inner := match name with
        | some n => path ++ [n]
        | none => path
      (match name with
        | some n => [{ name := n, kind := .functionKind, scope := scopeStr path }]
        | none => ([] : List UnusedVariable)) ++
      params.map (fun p => { name := p, kind := .parameterKind, scope := scopeStr inner }) ++
      declaredOfF inner body
  | .classDecl name members =>
      let inner := match name with
        | some n => path ++ [n]
        | none => path
      (match name with
        | some n => [{ name := n, kind := .classKind, scope := scopeStr path }]
        | none => ([] : List UnusedVariable)) ++
      declaredOfF inner members
  | .methodDecl name params body =>
      params.map (fun p => { name := p, kind := .parameterKind, scope := scopeStr (path ++ [name]) }) ++
      declaredOfF (path ++ [name]) body
  | .arrowFunc params body =>
      params.map (fun p => { name := p, kind := .parameterKind, scope := scopeStr path }) ++
      params.map (fun p => { name := p, kind := .parameterKind, scope := scopeStr path }) ++
      declaredOfF path body
  | .identRef _ => []
  | .propAssign _ value => declaredOfF path value
  | .otherNode children => declaredOfF path children

/-- Declaration harvesting over a sibling list. -/
def declaredOfF (path : List String) : VForest → List UnusedVariable
  | .nil => []
  | .cons n ns => declaredOf path n ++ declaredOfF path ns

end

mutual

/-- `findUsedIdentifiers` of the variable analyzer: every identifier except
those in the declaration contexts listed by `isDeclarationContext`
(variable / function / class names, parameter names, property-assignment
keys).  Method names are *not* in that list, so they count as uses. -/
def usedOfV : VNode → List String
  | .varDecl _ init => usedOfVF init
  | .funcDecl _ _ body => usedOfVF body
  | .classDecl _ members => usedOfVF members
  | .methodDecl name _ body => name :: usedOfVF body
  | .arrowFunc _ body => usedOfVF body
  | .identRef n => [n]
  | .propAssign _ value => usedOfVF value
  | .otherNode children => usedOfVF children

/-- Used-identifier collection over a sibling list. -/
def usedOfVF : VForest → List String
  | .nil => []
  | .cons n ns => usedOfV n ++ usedOfVF ns

end

/-- `findDeclaredVariables` on a whole file (top-level statement list). -/
def findDeclaredVariables (file : VForest) : List UnusedVariable :=
  declaredOfF ["global"] file

/-- The used-identifier set of a file (as a list; only membership is consulted). -/
def findUsedIdentifiersV (file : VForest) : List String :=
  usedOfVF file

/-- `identifyUnusedVariables`: names starting with `_` are excluded, then
a candidate is unused iff its name is not in the used set. -/
def identifyUnusedVariables (declared : List UnusedVariable) (used : List String) :
    List UnusedVariable :=
  declared.filter fun v =>
    if jsStartsWith v.name "_" then false
    else !(used.contains v.name)

/-- `categorizeUnusedVariables`: only `variable`-kind bindings whose scope
is not `"global"` are safe to remove; everything else requires review. -/
def categorizeUnusedVariables :
    List UnusedVariable → List UnusedVariable × List UnusedVariable
  | [] => ([], [])
  | v :: rest =>
      let p := categorizeUnusedVariables rest
      if v.kind = .variableKind ∧ v.scope ≠ "global" then (v :: p.1, p.2)
      else (p.1, v :: p.2)

/-- `VariableAnalysisResult`. -/
structure VariableAnalysisResult where
  unusedVariables : List UnusedVariable
  totalVariables : Nat
  safeToRemove : List UnusedVariable
  requiresReview : List UnusedVariable
  deriving DecidableEq, Repr

/-- `UnusedVariableAnalyzer.analyzeFile` on a parsed file. -/
def analyzeFile (file : VForest) : VariableAnalysisResult :=
  let declared := findDeclaredVariables file
  let used := findUsedIdentifiersV file
  let unused := identifyUnusedVariables declared used
  { unusedVariables := unused
    totalVariables := declared.length
    safeToRemove := (categorizeUnusedVariables unused).1
    requiresReview := (categorizeUnusedVariables unused).2 }

theorem mem_safe_categorize (l : List UnusedVariable) (v : UnusedVariable) :
    v ∈ (categorizeUnusedVariables l).1 →
      v ∈ l ∧ v.kind = .variableKind ∧ v.scope ≠ "global" := by
  induction l with
  | nil => intro h; simp [categorizeUnusedVariables] at h
  | cons w rest ih =>
      intro h
      by_cases hc : w.kind = .variableKind ∧ w.scope ≠ "global"
      · have h' : v ∈ w :: (categorizeUnusedVariables rest).1 := by
          rw [categorizeUnusedVariables, if_pos hc] at h
          exact h
        rcases List.mem_cons.mp h' with rfl | h''
        · exact ⟨List.mem_cons_self _ _, hc⟩
        · rcases ih h'' with ⟨hm, hk⟩
          exact ⟨List.mem_cons_of_mem _ hm, hk⟩
      · have h' : v ∈ (categorizeUnusedVariables rest).1 := by
          rw [categorizeUnusedVariables, if_neg hc] at h
          exact h
        rcases ih h' with ⟨hm, hk⟩
        exact ⟨List.mem_cons_of_mem _ hm, hk⟩

/-- C6: everything in `safeToRemove` is an unused, non-underscore binding
of kind `variable` whose scope is not `"global"`; in particular no
function, class, parameter, or global-scope binding — used or not — can
appear there. -/
theorem safeToRemove_only_local_unused_variables (file : VForest)
    (v : UnusedVariable) (hv : v ∈ (analyzeFile file).safeToRemove) :
    v.kind = .variableKind ∧ v.scope ≠ "global" ∧
    v ∈ (analyzeFile file).unusedVariables ∧
    v.name ∉ findUsedIdentifiersV file ∧
    ¬ jsStartsWith v.name "_" := by
  have h1 := mem_safe_categorize _ v (by
    simpa [analyzeFile] using hv)
  rcases h1 with ⟨hmem, hkind, hscope⟩
  have hfil := List.mem_filter.mp hmem
  rcases hfil with ⟨hdec, hpred⟩
  by_cases hu : jsStartsWith v.name "_"
  · rw [if_pos hu] at hpred
    exact absurd hpred (by simp)
  · rw [if_neg hu] at hpred
    refine ⟨hkind, hscope, by simpa [analyzeFile] using hmem, ?_, by simpa using hu⟩
    simpa using hpred

/-- A concrete file for the C6 witness: `function f() { const x = 1; }`
with both `f` and `x` unused. -/
def vfile₀ : VForest :=
  .cons (.funcDecl (some "f") [] (.cons (.varDecl "x" .nil) .nil)) .nil

/-- The local unused variable reported for `vfile₀`. -/
def vx₀ : UnusedVariable :=
  { name := "x", kind := .variableKind, scope := "global.f" }

/-- Witness for C6: on `vfile₀` the binding `x` is in `safeToRemove`,
and the theorem yields its guarantees at that concrete input. -/
theorem safeToRemove_only_local_unused_variables_witness :
    vx₀.kind = .variableKind ∧ vx₀.scope ≠ "global" ∧
    vx₀ ∈ (analyzeFile vfile₀).unusedVariables ∧
    vx₀.name ∉ findUsedIdentifiersV vfile₀ ∧
    ¬ jsStartsWith vx₀.name "_" :=
  safeToRemove_only_local_unused_variables vfile₀ vx₀ (by decide)

/-! ## UnusedImportAnalyzer (src/utils/unusedImportAnalyzer.ts, part_010)

`findUnusedImports` consumes a parsed `ts.SourceFile` while
`removeUnusedImports` consumes the raw content string and splits it on
newlines.  The embedding represents a file as its list of source lines;
each line carries the statements parsed from it.  A line whose raw text
is the empty string is a line with no statements and `blankPad = false`;
`blankPad = true` marks a line that renders as a non-empty string (for
example whitespace or a pure comment) while contributing no statements.
Import declarations never span multiple lines in this representation;
the idempotence theorem for C5 makes its single-import-per-line
assumption explicit, and the C5 counterexample shows the law fails once
code shares a line with an import declaration. -/

/-- An `ImportSpecifier` of a named-import list: `propertyName` is the
original exported name when the binding is aliased (`{ foo as bar }`
has `propertyName = some "foo"`, `name = "bar"`). -/
structure ImportSpecifier where
  propertyName : Option String
  name : String
  deriving DecidableEq, Repr

/-- Named bindings of an import clause. -/
inductive NamedBindings where
  | nsImport (name : String)
  | namedImports (elements : List ImportSpecifier)
  deriving DecidableEq, Repr

/-- An import clause: optional default binding plus optional named bindings. -/
structure ImportClause where
  defaultName : Option String
  bindings : Option NamedBindings
  deriving DecidableEq, Repr

mutual

/-- Code outside import declarations, as seen by the import analyzer's
`isIdentifierReference`: identifier references, declaration names (whose
name slot is *not* a reference), property assignments (whose key *is* a
reference for this analyzer — `isIdentifierReference` does not exclude
`PropertyAssignment`), and other nodes. -/
inductive CodeNode where
  | identRefC (name : String)
  | varDeclC (name : String) (init : CodeForest)
  | propAssignC (key : String) (value : CodeForest)
  | otherC (children : CodeForest)
  deriving DecidableEq

/-- Sibling code nodes. -/
inductive CodeForest where
  | nil
  | cons (hd : CodeNode) (tl : CodeForest)
  deriving DecidableEq

end

mutual

/-- Identifier references collected by `extractUsedIdentifiers` inside one
code node (declaration-name slots excluded, property-assignment keys
included, per `isIdentifierReference` of the import analyzer). -/
def refIdents : CodeNode → List String
  | .identRefC n => [n]
  | .varDeclC _ init => refIdentsF init
  | .propAssignC key value => key :: refIdentsF value
  | .otherC children => refIdentsF children

/-- Identifier references of a sibling list. -/
def refIdentsF : CodeForest → List String
  | .nil => []
  | .cons n ns => refIdents n ++ refIdentsF ns

end

/-- A top-level statement: an import declaration (`clause = none` is a
side-effect import) or ordinary code. -/
inductive IStmt where
  | importDecl (modulePath : String) (clause : Option ImportClause)
  | code (node : CodeNode)
  deriving DecidableEq

/-- Does the statement parse as an import declaration? -/
def isImportStmt : IStmt → Bool
  | .importDecl _ _ => true
  | .code _ => false

/-- One source line: the statements parsed from it, plus whether the raw
line text is non-empty even without statements (whitespace / comments). -/
structure Line where
  stmts : List IStmt
  blankPad : Bool
  deriving DecidableEq

/-- `!line` of the removal loop: the raw line is the empty string. -/
def lineIsEmptyStr (l : Line) : Bool :=
  l.stmts.isEmpty && !l.blankPad

/-- The syntactic form of an import binding. -/
inductive ImpType where
  | defaultImp
  | namedImp
  | namespaceImp
  | sideEffectImp
  deriving DecidableEq, Repr

/-- An `UnusedImport` record.  The character `start`/`end` positions are
not consulted by any claim and are omitted; `line` is the 1-based line
of the enclosing import declaration. -/
structure UnusedImport where
  importName : String
  importPath : String
  line : Nat
  itype : ImpType
  deriving DecidableEq, Repr

/-- The entries `extractAllImports` pushes for one statement on line `n`.
For a named import the recorded name is
`element.propertyName ? element.propertyName.text : element.name.text` —
the original exported name when the binding is aliased. -/
def importsOfStmt (n : Nat) : IStmt → List UnusedImport
  | .importDecl path none =>
      [{ importName := "", importPath := path, line := n, itype := .sideEffectImp }]
  | .importDecl path (some clause) =>
      (match clause.defaultName with
        | some d => [{ importName := d, importPath := path, line := n, itype := .defaultImp }]
        | none => ([] : List UnusedImport)) ++
      (match clause.bindings with
        | none => []
        | some (.nsImport ns) =>
            [{ importName := ns, importPath := path, line := n, itype := .namespaceImp }]
        | some (.namedImports els) =>
            els.map fun e =>
              { importName := e.propertyName.getD e.name, importPath := path,
                line := n, itype := .namedImp })
  | .code _ => []

/-- `extractAllImports` over the lines starting at line number `n`. -/
def extractFrom (n : Nat) : List Line → List UnusedImport
  | [] => []
  | l :: ls => l.stmts.flatMap (importsOfStmt n) ++ extractFrom (n + 1) ls

/-- `extractAllImports` of a file. -/
def extractAllImports (c : List Line) : List UnusedImport :=
  extractFrom 1 c

/-- `extractUsedIdentifiers`: identifier references of everything that is
not inside an import declaration (the visitor sets `inImportStatement`
around import subtrees). -/
def usedOfStmt : IStmt → List String
  | .importDecl _ _ => []
  | .code node => refIdents node

/-- The used-identifier set of a file (a list; only membership matters). -/
def extractUsedIdentifiersI (c : List Line) : List String :=
  c.flatMap fun l => l.stmts.flatMap usedOfStmt

/-- `isImportUsed`: the recorded import name is in the used set. -/
def isImportUsed (imp : UnusedImport) (used : List String) : Bool :=
  used.contains imp.importName

/-- `UnusedImportAnalyzer.findUnusedImports`: side-effect imports are
always considered used; every other binding is reported iff its recorded
name is absent from the used-identifier set. -/
def findUnusedImports (c : List Line) : List UnusedImport :=
  let imports := extractAllImports c
  let used := extractUsedIdentifiersI c
  imports.filter fun imp =>
    if imp.itype = .sideEffectImp then false
    else !(isImportUsed imp used)

/-- `removeImportsFromLine`: the source returns the empty string for every
input line ("for now, remove the entire line if it contains unused
imports"). -/
def removeImportsFromLine (_line : Line) (_unusedInLine : List UnusedImport) : String :=
  ""

/-- The line-removal loop of `removeUnusedImports`, carried out from line
number `n`.  `if (!line) continue` drops raw-empty lines; a line whose
number carries an unused import becomes `removeImportsFromLine`'s empty
string, fails the `modifiedLine.trim()` test and is dropped; every other
line is pushed verbatim. -/
def removeLoop (lineNums : List Nat) : Nat → List Line → List Line
  | _, [] => []
  | n, l :: ls =>
      if lineIsEmptyStr l then removeLoop lineNums (n + 1) ls
      else if n ∈ lineNums then removeLoop lineNums (n + 1) ls
      else l :: removeLoop lineNums (n + 1) ls

/-- `UnusedImportAnalyzer.removeUnusedImports`.  The source groups the
unused imports into a by-line map and only tests `has(lineNum)` on it,
which is membership in the list of unused-import line numbers. -/
def removeUnusedImports (content : List Line) (unused : List UnusedImport) : List Line :=
  if unused.isEmpty then content
  else removeLoop (unused.map (·.line)) 1 content

/-! ### C3: which name does the analyzer test against the used set? -/

/-- The import clause `{ foo as bar }`. -/
def clause₃ : ImportClause :=
  { defaultName := none
    bindings := some (.namedImports [{ propertyName := some "foo", name := "bar" }]) }

/-- `import { foo as bar } from 'm'` followed by a use of the local alias
`bar`. -/
def ifile₃ : List Line :=
  [ { stmts := [.importDecl "m" (some clause₃)], blankPad := false },
    { stmts := [.code (.identRefC "bar")], blankPad := false } ]

/-- C3 counterexample: the file's only binding has local name `bar`,
which occurs in the used-identifier set, yet `findUnusedImports` still
reports the binding (under its original exported name `foo`), because
`extractAllImports` records `propertyName` — not the local alias — for
aliased named imports.  The claim's "unused iff the local name never
appears in the used set" is false for this input. -/
theorem aliased_import_reported_despite_used_alias :
    findUnusedImports ifile₃ =
      [{ importName := "foo", importPath := "m", line := 1, itype := .namedImp }] ∧
    "bar" ∈ extractUsedIdentifiersI ifile₃ := by
  decide

/-- C3 amended: a non-side-effect import binding is reported unused iff
the *recorded* import name — the original exported (`propertyName`) name
for aliased named imports, the local name otherwise — never appears in
the used-identifier set collected outside import declarations. -/
theorem findUnusedImports_iff_recorded_name (c : List Line) (imp : UnusedImport)
    (h : imp ∈ extractAllImports c) (hs : imp.itype ≠ .sideEffectImp) :
    imp ∈ findUnusedImports c ↔ imp.importName ∉ extractUsedIdentifiersI c := by
  unfold findUnusedImports
  constructor
  · intro hin
    have hpred := (List.mem_filter.mp hin).2
    rw [if_neg hs] at hpred
    simpa [isImportUsed] using hpred
  · intro hnot
    refine List.mem_filter.mpr ⟨h, ?_⟩
    rw [if_neg hs]
    simpa [isImportUsed] using hnot

/-- Witness for the amended C3 at the concrete file `ifile₃`. -/
theorem findUnusedImports_iff_recorded_name_witness :
    ({ importName := "foo", importPath := "m", line := 1, itype := .namedImp } : UnusedImport)
        ∈ findUnusedImports ifile₃ ↔
      "foo" ∉ extractUsedIdentifiersI ifile₃ :=
  findUnusedImports_iff_recorded_name ifile₃ _ (by decide) (by decide)

/-! ### Characterising the removal loop (claims C9 and C5) -/

theorem mem_removeLoop (ns : List Nat) (c : List Line) :
    ∀ (n : Nat) (l : Line),
      l ∈ removeLoop ns n c ↔
        ∃ i, c.get? i = some l ∧ lineIsEmptyStr l = false ∧ (n + i) ∉ ns := by
  induction c with
  | nil => intro n l; simp [removeLoop]
  | cons hd tl ih =>
      intro n l
      rw [removeLoop]
      by_cases he : lineIsEmptyStr hd
      · rw [if_pos he]
        constructor
        · intro h
          rcases (ih (n + 1) l).mp h with ⟨i, hi, hne, hnotin⟩
          refine ⟨i + 1, by simpa using hi, hne, ?_⟩
          have : n + (i + 1) = n + 1 + i := by omega
          rw [this]; exact hnotin
        · rintro ⟨i, hi, hne, hnotin⟩
          match i, hi with
          | 0, hi =>
              have : hd = l := by simpa using hi
              subst this
              exact absurd hne (by simp [he])
          | i' + 1, hi =>
              refine (ih (n + 1) l).mpr ⟨i', by simpa using hi, hne, ?_⟩
              have : n + 1 + i' = n + (i' + 1) := by omega
              rw [this]; exact hnotin
      · rw [if_neg he]
        by_cases hn : n ∈ ns
        · rw [if_pos hn]
          constructor
          · intro h
            rcases (ih (n + 1) l).mp h with ⟨i, hi, hne, hnotin⟩
            refine ⟨i + 1, by simpa using hi, hne, ?_⟩
            have : n + (i + 1) = n + 1 + i := by omega
            rw [this]; exact hnotin
          · rintro ⟨i, hi, hne, hnotin⟩
            match i, hi with
            | 0, hi =>
                exact absurd (by simpa using hn) hnotin
            | i' + 1, hi =>
                refine (ih (n + 1) l).mpr ⟨i', by simpa using hi, hne, ?_⟩
                have : n + 1 + i' = n + (i' + 1) := by omega
                rw [this]; exact hnotin
        · rw [if_neg hn]
          constructor
          · intro h
            rcases List.mem_cons.mp h with rfl | h'
            · exact ⟨0, rfl, by simpa using he, by simpa using hn⟩
            · rcases (ih (n + 1) l).mp h' with ⟨i, hi, hne, hnotin⟩
              refine ⟨i + 1, by simpa using hi, hne, ?_⟩
              have : n + (i + 1) = n + 1 + i := by omega
              rw [this]; exact hnotin
          · rintro ⟨i, hi, hne, hnotin⟩
            match i, hi with
            | 0, hi =>
                have : hd = l := by simpa using hi
                subst this
                exact List.mem_cons_self _ _
            | i' + 1, hi =>
                refine List.mem_cons_of_mem _ ((ih (n + 1) l).mpr
                  ⟨i', by simpa using hi, hne, ?_⟩)
                have : n + 1 + i' = n + (i' + 1) := by omega
                rw [this]; exact hnotin

theorem mem_removeUnusedImports (content : List Line) (unused : List UnusedImport)
    (hne : unused ≠ []) (l : Line) :
    l ∈ removeUnusedImports content unused ↔
      ∃ i, content.get? i = some l ∧ lineIsEmptyStr l = false ∧
        (i + 1) ∉ unused.map (·.line) := by
  unfold removeUnusedImports
  rw [if_neg (by simpa using hne)]
  rw [mem_removeLoop]
  constructor
  · rintro ⟨i, hi, hn, hnotin⟩
    exact ⟨i, hi, hn, by rwa [Nat.add_comm 1 i] at hnotin⟩
  · rintro ⟨i, hi, hn, hnotin⟩
    exact ⟨i, hi, hn, by rwa [Nat.add_comm i 1] at hnotin⟩

/-- C9: as soon as the unused-import list is non-empty, the removal pass
(a) leaves no raw-empty line in its output, (b) preserves verbatim every
non-empty line whose line number carries no unused import, and (c)
invents no lines. -/
theorem removeUnusedImports_drops_empty_lines (content : List Line)
    (unused : List UnusedImport) (hne : unused ≠ []) :
    (∀ l ∈ removeUnusedImports content unused, lineIsEmptyStr l = false) ∧
    (∀ i l, content.get? i = some l → lineIsEmptyStr l = false →
      (i + 1) ∉ unused.map (·.line) → l ∈ removeUnusedImports content unused) ∧
    (∀ l ∈ removeUnusedImports content unused, l ∈ content) := by
  refine ⟨?_, ?_, ?_⟩
  · intro l hl
    rcases (mem_removeUnusedImports content unused hne l).mp hl with ⟨_, _, h, _⟩
    exact h
  · intro i l hi hne' hnotin
    exact (mem_removeUnusedImports content unused hne l).mpr ⟨i, hi, hne', hnotin⟩
  · intro l hl
    rcases (mem_removeUnusedImports content unused hne l).mp hl with ⟨i, hi, _, _⟩
    exact List.get?_mem hi

/-- The code line kept by the C9 witness. -/
def iline₉ : Line := { stmts := [.code (.identRefC "b")], blankPad := false }

/-- Witness content for C9: an import line (line 1), a raw-empty line
(line 2) and a code line (line 3). -/
def content₉ : List Line :=
  [ { stmts := [.importDecl "x" (some { defaultName := some "a", bindings := none })],
      blankPad := false },
    { stmts := [], blankPad := false },
    iline₉ ]

/-- One unused import on line 1 of `content₉`. -/
def unused₉ : List UnusedImport :=
  [{ importName := "a", importPath := "x", line := 1, itype := .defaultImp }]

/-- Witness for C9 at `content₉`: no empty line survives, and the
unrelated code line (line 3) is preserved verbatim. -/
theorem removeUnusedImports_drops_empty_lines_witness :
    (∀ l ∈ removeUnusedImports content₉ unused₉, lineIsEmptyStr l = false) ∧
    iline₉ ∈ removeUnusedImports content₉ unused₉ :=
  ⟨(removeUnusedImports_drops_empty_lines content₉ unused₉ (by decide)).1,
   (removeUnusedImports_drops_empty_lines content₉ unused₉ (by decide)).2.1 2 iline₉
     rfl (by decide) (by decide)⟩

/-! ### C5: idempotence of `findUnusedImports` ∘ `removeUnusedImports` -/

/-- C5 counterexample file: line 1 holds `import a from 'x';` followed on
the *same line* by a statement using `b`; line 2 holds
`import b from 'y';`. -/
def ifile₅ : List Line :=
  [ { stmts := [.importDecl "x" (some { defaultName := some "a", bindings := none }),
                .code (.identRefC "b")],
      blankPad := false },
    { stmts := [.importDecl "y" (some { defaultName := some "b", bindings := none })],
      blankPad := false } ]

/-- C5 counterexample: on `ifile₅` the first pass reports `a` and removes
all of line 1 — including the only use of `b` — so re-running
`findUnusedImports` on the result reports `b`: the second pass is *not*
empty, falsifying the claim for arbitrary content. -/
theorem removeUnusedImports_not_idempotent :
    findUnusedImports (removeUnusedImports ifile₅ (findUnusedImports ifile₅)) =
      [{ importName := "b", importPath := "y", line := 1, itype := .defaultImp }] := by
  decide

theorem mem_extractFrom (c : List Line) :
    ∀ (n : Nat) (imp : UnusedImport),
      imp ∈ extractFrom n c ↔
        ∃ i l s, c.get? i = some l ∧ s ∈ l.stmts ∧ imp ∈ importsOfStmt (n + i) s := by
  induction c with
  | nil => intro n imp; simp [extractFrom]
  | cons hd tl ih =>
      intro n imp
      rw [extractFrom]
      constructor
      · intro h
        rcases List.mem_append.mp h with h' | h'
        · rcases List.mem_flatMap.mp h' with ⟨s, hs, hin⟩
          exact ⟨0, hd, s, rfl, hs, by simpa using hin⟩
        · rcases (ih (n + 1) imp).mp h' with ⟨i, l, s, hget, hs, hin⟩
          refine ⟨i + 1, l, s, by simpa using hget, hs, ?_⟩
          have : n + (i + 1) = n + 1 + i := by omega
          rw [this]; exact hin
      · rintro ⟨i, l, s, hget, hs, hin⟩
        match i, hget with
        | 0, hget =>
            have : hd = l := by simpa using hget
            subst this
            exact List.mem_append.mpr (Or.inl (List.mem_flatMap.mpr ⟨s, hs, by simpa using hin⟩))
        | i' + 1, hget =>
            refine List.mem_append.mpr (Or.inr ((ih (n + 1) imp).mpr
              ⟨i', l, s, by simpa using hget, hs, ?_⟩))
            have : n + 1 + i' = n + (i' + 1) := by omega
            rw [this]; exact hin

theorem importsOfStmt_line (n : Nat) (s : IStmt) (imp : UnusedImport)
    (h : imp ∈ importsOfStmt n s) : imp.line = n := by
  match s with
  | .code _ => simp [importsOfStmt] at h
  | .importDecl path none =>
      simp [importsOfStmt] at h
      rw [h]
  | .importDecl path (some clause) =>
      rw [importsOfStmt] at h
      rcases List.mem_append.mp h with h' | h'
      · match hd : clause.defaultName with
        | some d => rw [hd] at h'; simp at h'; rw [h']
        | none => rw [hd] at h'; simp at h'
      · match hb : clause.bindings with
        | none => rw [hb] at h'; simp at h'
        | some (.nsImport ns) => rw [hb] at h'; simp at h'; rw [h']
        | some (.namedImports els) =>
            rw [hb] at h'
            rcases List.mem_map.mp h' with ⟨e, _, he⟩
            rw [← he]

theorem importsOfStmt_isImport (n : Nat) (s : IStmt) (imp : UnusedImport)
    (h : imp ∈ importsOfStmt n s) : isImportStmt s = true := by
  match s with
  | .code _ => simp [importsOfStmt] at h
  | .importDecl _ _ => rfl

theorem usedOfStmt_isCode (s : IStmt) (x : String) (h : x ∈ usedOfStmt s) :
    isImportStmt s = false := by
  match s with
  | .importDecl _ _ => simp [usedOfStmt] at h
  | .code _ => rfl

/-- `importsOfStmt` at two different line numbers produces the same
bindings up to the recorded `line` field. -/
theorem importsOfStmt_key (n n' : Nat) (s : IStmt) :
    (importsOfStmt n s).map (fun i => (i.importName, i.importPath, i.itype)) =
      (importsOfStmt n' s).map (fun i => (i.importName, i.importPath, i.itype)) := by
  match s with
  | .code _ => rfl
  | .importDecl path none => rfl
  | .importDecl path (some clause) =>
      rw [importsOfStmt, importsOfStmt]
      rw [List.map_append, List.map_append]
      congr 1
      · match clause.defaultName with
        | some d => rfl
        | none => rfl
      · match clause.bindings with
        | none => rfl
        | some (.nsImport ns) => rfl
        | some (.namedImports els) => simp

theorem mem_usedI (c : List Line) (x : String) :
    x ∈ extractUsedIdentifiersI c ↔
      ∃ l ∈ c, ∃ s ∈ l.stmts, x ∈ usedOfStmt s := by
  simp [extractUsedIdentifiersI, List.mem_flatMap]

/-- C5 amended: the second analysis pass is empty *provided every import
declaration occupies a line of its own* (no code statement shares a line
with an import declaration; an import fits on one line by construction
of the line model).  The counterexample above shows the unrestricted
claim fails when code shares a line with an unused import. -/
theorem removeUnusedImports_idempotent (c : List Line)
    (H : ∀ l ∈ c, ∀ s ∈ l.stmts, isImportStmt s = true → l.stmts = [s]) :
    findUnusedImports (removeUnusedImports c (findUnusedImports c)) = [] := by
  by_cases hU : findUnusedImports c = []
  · rw [hU]
    rw [show removeUnusedImports c [] = c from by rw [removeUnusedImports]; simp]
    exact hU
  · have hne : ¬ (findUnusedImports c).isEmpty := by simpa using hU
    set U := findUnusedImports c with hUdef
    set ns := U.map (·.line) with hnsdef
    have hout : removeUnusedImports c U = removeLoop ns 1 c := by
      rw [removeUnusedImports, if_neg (by simpa using hne)]
    rw [hout]
    set out := removeLoop ns 1 c with houtdef
    -- the used-identifier set survives the removal pass
    have husedsub : ∀ x, x ∈ extractUsedIdentifiersI c → x ∈ extractUsedIdentifiersI out := by
      intro x hx
      rcases (mem_usedI c x).mp hx with ⟨l, hl, s, hs, hxs⟩
      rcases List.mem_iff_get?.mp hl with ⟨i, hget⟩
      have hempty : lineIsEmptyStr l = false := by
        have : ¬ l.stmts.isEmpty := by
          intro hemp
          rw [List.isEmpty_iff] at hemp
          rw [hemp] at hs
          simp at hs
        simp [lineIsEmptyStr, this]
      have hnotin : (1 + i) ∉ ns := by
        intro hin
        rcases List.mem_map.mp hin with ⟨impU, himpU, hline⟩
        have himpU' : impU ∈ extractFrom 1 c := (List.mem_filter.mp himpU).1
        rcases (mem_extractFrom c 1 impU).mp himpU' with ⟨i', l', s', hget', hs', hin'⟩
        have hline' : impU.line = 1 + i' := importsOfStmt_line _ _ _ hin'
        have : i' = i := by omega
        subst this
        have hll : l' = l := Option.some.inj (hget'.symm.trans hget)
        rw [hll] at hs'
        have hsimp : isImportStmt s' = true := importsOfStmt_isImport _ _ _ hin'
        have hsingle := H l (List.get?_mem hget) s' hs' hsimp
        rw [hsingle] at hs
        have hss : s = s' := by simpa using hs
        rw [← hss] at hsimp
        rw [usedOfStmt_isCode s x hxs] at hsimp
        exact Bool.false_ne_true hsimp
      have hlout : l ∈ out := by
        rw [houtdef]
        exact (mem_removeLoop ns c 1 l).mpr ⟨i, hget, hempty, hnotin⟩
      exact (mem_usedI out x).mpr ⟨l, hlout, s, hs, hxs⟩
    -- every import binding surviving into `out` was used in `c`
    rw [findUnusedImports]
    refine List.filter_eq_nil_iff.mpr ?_
    intro imp himp
    rcases (mem_extractFrom out 1 imp).mp himp with ⟨j, l, s, hgetj, hs, hinj⟩
    by_cases hside : imp.itype = .sideEffectImp
    · simp [hside]
    · rw [if_neg hside]
      have hlout : l ∈ out := List.get?_mem hgetj
      rcases (mem_removeLoop ns c 1 l).mp (houtdef ▸ hlout) with ⟨i, hgeti, hempty, hnotin⟩
      -- the same binding, recorded at its original line number
      have hkey := importsOfStmt_key (1 + j) (1 + i) s
      have : (imp.importName, imp.importPath, imp.itype) ∈
          (importsOfStmt (1 + i) s).map (fun k => (k.importName, k.importPath, k.itype)) := by
        rw [← hkey]
        exact List.mem_map.mpr ⟨imp, hinj, rfl⟩
      rcases List.mem_map.mp this with ⟨imp₀, hin₀, hkey₀⟩
      have hname₀ : imp₀.importName = imp.importName := congrArg Prod.fst hkey₀
      have htype₀ : imp₀.itype = imp.itype := congrArg (fun p => p.2.2) hkey₀
      have himp₀ : imp₀ ∈ extractFrom 1 c :=
        (mem_extractFrom c 1 imp₀).mpr ⟨i, l, s, hgeti, hs, hin₀⟩
      -- if the recorded name were unused in `c`, the binding's line would
      -- have been removed, contradicting the survival of `l`
      have hused : imp.importName ∈ extractUsedIdentifiersI c := by
        by_contra hnotused
        have hmem₀ : imp₀ ∈ U := by
          rw [hUdef, findUnusedImports]
          refine List.mem_filter.mpr ⟨himp₀, ?_⟩
          rw [if_neg (by rw [htype₀]; exact hside)]
          simp only [isImportUsed, Bool.not_eq_true']
          rw [hname₀]
          simpa using hnotused
        have : imp₀.line ∈ ns := List.mem_map.mpr ⟨imp₀, hmem₀, rfl⟩
        rw [importsOfStmt_line _ _ _ hin₀] at this
        exact hnotin this
      have husedout := husedsub _ hused
      simp only [isImportUsed, Bool.not_eq_false]
      simpa using husedout

/-- Content for the C5 amended witness: an unused import alone on line 1
and a code line using the import of line 2 — every import line holds
exactly its import declaration. -/
def ifile₅w : List Line :=
  [ { stmts := [.importDecl "x" (some { defaultName := some "a", bindings := none })],
      blankPad := false },
    { stmts := [.importDecl "y" (some { defaultName := some "b", bindings := none })],
      blankPad := false },
    { stmts := [.code (.identRefC "b")], blankPad := false } ]

/-- Witness for the amended C5 at `ifile₅w`. -/
theorem removeUnusedImports_idempotent_witness :
    findUnusedImports (removeUnusedImports ifile₅w (findUnusedImports ifile₅w)) = [] :=
  removeUnusedImports_idempotent ifile₅w (by decide)

/-! ## ErrorContextService (src/services/ErrorContextService.ts)

The message strings and suggestion lists interpolate floating-point
values and stack traces; the claims consult only the error type, the
severity, the actionable flag and the structured context, so the
embedding carries exactly those. -/

/-- The error taxonomy. -/
inductive ErrType where
  | FATAL
  | RECOVERABLE
  | VALIDATION
  | SAFETY
  | TIMEOUT
  | PATTERN_MATCH
  deriving DecidableEq, Repr

/-- Error severities. -/
inductive Severity where
  | LOW
  | MEDIUM
  | HIGH
  | CRITICAL
  deriving DecidableEq, Repr

/-- The structured `context` attached to an `ErrorContext`. -/
structure ErrCtxContext where
  operation : String
  fileName : Option String := none
  lineNumber : Option Nat := none
  todoContent : Option String := none
  confidence : Option Conf := none
  safetyThreshold : Option Conf := none
  patternId : Option String := none
  attemptNumber : Option Nat := none
  maxRetries : Option Nat := none
  deriving DecidableEq, Repr

/-- Outcome of `analyzeError`: the fields beyond suggestion / message
strings. -/
structure ErrAnalysis where
  actionable : Bool
  severity : Severity
  deriving DecidableEq, Repr

/-- `analyzeSafetyError`: severity is keyed on `context.confidence || 0`
against 0.3 and `context.safetyThreshold || 0.7` (scaled: 30 and 70). -/
def analyzeSafetyError (context : ErrCtxContext) : ErrAnalysis :=
  let confidence := jsOrQ context.confidence 0
  let threshold := jsOrQ context.safetyThreshold 70
  if confidence < 30 then { actionable := true, severity := .HIGH }
  else if confidence < threshold then { actionable := true, severity := .MEDIUM }
  else { actionable := true, severity := .LOW }

/-- `analyzeRecoverableError`: actionable / HIGH once the attempt count
(`context.attemptNumber || 1`) reaches `context.maxRetries || 3`. -/
def analyzeRecoverableError (context : ErrCtxContext) : ErrAnalysis :=
  let attemptNumber := jsOrN context.attemptNumber 1
  let maxRetries := jsOrN context.maxRetries 3
  { actionable := attemptNumber ≥ maxRetries
    severity := if attemptNumber ≥ maxRetries then .HIGH else .LOW }

/-- `analyzeError`: dispatch on the error type (the TS `default` branch is
unreachable for the closed union of six types). -/
def analyzeError (errorType : ErrType) (context : ErrCtxContext) : ErrAnalysis :=
  match errorType with
  | .SAFETY => analyzeSafetyError context
  | .PATTERN_MATCH => { actionable := true, severity := .MEDIUM }
  | .TIMEOUT => { actionable := true, severity := .HIGH }
  | .VALIDATION => { actionable := true, severity := .HIGH }
  | .FATAL => { actionable := true, severity := .CRITICAL }
  | .RECOVERABLE => analyzeRecoverableError context

/-- An `ErrorContext` record (`id`, timestamp, stack trace and the
human-readable strings omitted; no claim consults them). -/
structure ErrorContext where
  sessionId : String
  actionId : Option String
  errorType : ErrType
  context : ErrCtxContext
  actionable : Bool
  severity : Severity
  deriving DecidableEq, Repr

/-- `ErrorContextService.recordError`: build the `ErrorContext` from the
analysis of the type and context (callers always supply `operation`, so
the `'unknown'` default of the spread never fires). -/
def recordError (sessionId : String) (actionId : Option String)
    (errorType : ErrType) (context : ErrCtxContext) : ErrorContext :=
  let analysis := analyzeError errorType context
  { sessionId := sessionId
    actionId := actionId
    errorType := errorType
    context := context
    actionable := analysis.actionable
    severity := analysis.severity }

/-- `ErrorContextService.recordSafetyRejection`. -/
def recordSafetyRejection (sessionId todoContent fileName : String)
    (lineNumber : Nat) (confidence safetyThreshold : Conf)
    (patternId : Option String) : ErrorContext :=
  recordError sessionId none .SAFETY
    { operation := "safety_check"
      fileName := some fileName
      lineNumber := some lineNumber
      todoContent := some todoContent
      confidence := some confidence
      safetyThreshold := some safetyThreshold
      patternId := patternId }

/-- `ErrorContextService.recordPatternMatchFailure`. -/
def recordPatternMatchFailure (sessionId todoContent fileName : String)
    (lineNumber : Nat) : ErrorContext :=
  recordError sessionId none .PATTERN_MATCH
    { operation := "pattern_matching"
      fileName := some fileName
      lineNumber := some lineNumber
      todoContent := some todoContent }

/-! ## AutoContinueService.processTodo and the autonomous loop
(src/services/AutoContinueService.ts, part_013) -/

/-- The Action constructed by `processTodo` (ids, timestamps, the
description string and the checksum record omitted). -/
structure PAction where
  actionType : ActionTy
  status : ActionSt
  patternId : String
  confidence : Conf
  riskLevel : Risk
  requiresApproval : Bool
  deriving DecidableEq, Repr

/-- The service-level configuration fields `processTodo` consults
(`this.config`). -/
structure ServiceCfg where
  safetyThreshold : Conf
  patternsEnabled : List String
  deriving DecidableEq, Repr

/-- `AutoContinueService.processTodo`, decision chain of §4.6: no match →
PATTERN_MATCH error and `null`; best-match confidence below the service
`safetyThreshold` → SAFETY rejection and `null`; pattern not enabled →
SAFETY error and `null`; otherwise an Action, executed only when the
confidence reaches the *session* `autoApproveThreshold`.  `exec_ok`
abstracts whether `executeAction` ran to completion or threw its
`RecoverableError` (in which case the catch block records the error and
returns `null`).  The returned flag records whether `executeAction` was
invoked at all. -/
def processTodo (cfg : ServiceCfg) (scfg : SessionConfig) (sessionId : String)
    (todoContent fileName : String) (lineNumber : Nat)
    (ml : List PatternMatch) (exec_ok : Bool) :
    Option PAction × List ErrorContext × Bool :=
  match selectBestMatch ml with
  | none =>
      (none, [recordPatternMatchFailure sessionId todoContent fileName lineNumber], false)
  | some bm =>
      if bm.confidence < cfg.safetyThreshold then
        (none,
         [recordSafetyRejection sessionId todoContent fileName lineNumber
            bm.confidence cfg.safetyThreshold (some bm.pattern.id)],
         false)
      else if !(cfg.patternsEnabled.contains bm.pattern.id) then
        (none,
         [recordError sessionId none .SAFETY
            { operation := "pattern_check"
              fileName := some fileName
              lineNumber := some lineNumber
              todoContent := some todoContent
              patternId := some bm.pattern.id }],
         false)
      else
        let action : PAction :=
          { actionType := bm.actionType
            status := .pending
            patternId := bm.pattern.id
            confidence := bm.confidence
            riskLevel := bm.riskLevel
            requiresApproval := bm.confidence < scfg.autoApproveThreshold }
        if bm.confidence ≥ scfg.autoApproveThreshold then
          if exec_ok then
            -- `executeAction` sets `status = EXECUTING` and, on success,
            -- never moves it further; the action is returned as mutated.
            (some { action with status := .executing }, [], true)
          else
            -- `executeAction` re-threw as RecoverableError; the catch of
            -- `processTodo` records it and returns `null`.
            (none,
             [recordError sessionId none .RECOVERABLE
                { operation := "todo_processing"
                  fileName := some fileName
                  lineNumber := some lineNumber
                  todoContent := some todoContent }],
             true)
        else
          (some { action with status := .requiresApproval }, [], false)

/-- Per-TODO loop accounting of `runAutonomousLoop`: the budget check
`if (actionsExecuted >= maxActionsPerSession) break` guards the body;
any returned action — executed or requires-approval — is appended via
`sessionStorage.addAction` and bumps `actionsExecuted`. -/
structure LoopSt where
  actionsExecuted : Nat
  actions : List PAction
  deriving DecidableEq, Repr

/-- One iteration of the inner `for (const todo of todos)` body for a
TODO whose processing returned `res` (the `break` is modelled by the
guard re-failing for every later TODO). -/
def todoStep (maxActionsPerSession : Nat) (st : LoopSt) (res : Option PAction) : LoopSt :=
  if st.actionsExecuted ≥ maxActionsPerSession then st
  else
    match res with
    | some a => { actionsExecuted := st.actionsExecuted + 1, actions := st.actions ++ [a] }
    | none => st

/-- C7: with a best pattern match of confidence 0.5 against a safety
threshold of 0.7, `processTodo` creates no Action and records exactly one
ErrorContext of type SAFETY with severity MEDIUM whose context carries
both the confidence and the safety threshold. -/
theorem processTodo_safety_rejection (cfg : ServiceCfg) (scfg : SessionConfig)
    (sessionId todoContent fileName : String) (lineNumber : Nat)
    (ml : List PatternMatch) (exec_ok : Bool) (bm : PatternMatch)
    (hbm : selectBestMatch ml = some bm)
    (hconf : bm.confidence = 50) (hthr : cfg.safetyThreshold = 70) :
    ∃ e, processTodo cfg scfg sessionId todoContent fileName lineNumber ml exec_ok =
        (none, [e], false) ∧
      e.errorType = .SAFETY ∧
      e.severity = .MEDIUM ∧
      e.context.confidence = some 50 ∧
      e.context.safetyThreshold = some 70 := by
  refine ⟨recordSafetyRejection sessionId todoContent fileName lineNumber 50 70
    (some bm.pattern.id), ?_, ?_, ?_, ?_, ?_⟩
  · simp only [processTodo, hbm]
    rw [if_pos (by rw [hconf, hthr]; norm_num)]
    rw [hconf, hthr]
  · rfl
  · simp [recordSafetyRejection, recordError, analyzeError, analyzeSafetyError, jsOrQ]
  · rfl
  · rfl

/-- A one-pattern match list of confidence 0.5 for the C7 witness. -/
def lowMatch₀ : PatternMatch :=
  { pattern :=
      { id := "custom-low", name := "Custom", confidence := 50,
        riskLevel := .medium, actionType := .addComment, autoApprove := false,
        extractGroups := [] }
    confidence := 50
    actionType := .addComment
    extractedData := []
    riskLevel := .medium }

/-- Witness for C7 at concrete inputs. -/
theorem processTodo_safety_rejection_witness :
    ∃ e, processTodo { safetyThreshold := 70, patternsEnabled := ["add-comment"] }
        defaultSessionConfig "s" "todo" "f.ts" 3 [lowMatch₀] true = (none, [e], false) ∧
      e.errorType = .SAFETY ∧
      e.severity = .MEDIUM ∧
      e.context.confidence = some 50 ∧
      e.context.safetyThreshold = some 70 :=
  processTodo_safety_rejection _ _ "s" "todo" "f.ts" 3 [lowMatch₀] true lowMatch₀
    rfl rfl rfl

/-- C10: an Action whose confidence clears the safety threshold but not
the session's `autoApproveThreshold` is marked REQUIRES_APPROVAL, is
never executed (`executeAction` not invoked), yet is returned from
`processTodo`; the loop body then appends it to the session's action
list and increments `actionsExecuted`, consuming the per-session budget
through the same `some`-branch of the accounting step as an executed
action. -/
theorem requires_approval_consumes_budget (cfg : ServiceCfg) (scfg : SessionConfig)
    (sessionId todoContent fileName : String) (lineNumber : Nat)
    (ml : List PatternMatch) (exec_ok : Bool) (bm : PatternMatch)
    (hbm : selectBestMatch ml = some bm)
    (hsafe : ¬ bm.confidence < cfg.safetyThreshold)
    (hen : cfg.patternsEnabled.contains bm.pattern.id = true)
    (happr : bm.confidence < scfg.autoApproveThreshold) :
    ∃ a, processTodo cfg scfg sessionId todoContent fileName lineNumber ml exec_ok =
        (some a, [], false) ∧
      a.status = .requiresApproval ∧
      a.requiresApproval = true ∧
      (∀ (maxActionsPerSession : Nat) (st : LoopSt),
        st.actionsExecuted < maxActionsPerSession →
          todoStep maxActionsPerSession st (some a) =
            { actionsExecuted := st.actionsExecuted + 1, actions := st.actions ++ [a] }) ∧
      (∀ (maxActionsPerSession : Nat) (st : LoopSt) (b : PAction),
        st.actionsExecuted < maxActionsPerSession →
          todoStep maxActionsPerSession st (some a) = LoopSt.mk
              (todoStep maxActionsPerSession st (some b)).actionsExecuted
              (st.actions ++ [a])) := by
  refine ⟨{ actionType := bm.actionType, status := .requiresApproval,
            patternId := bm.pattern.id, confidence := bm.confidence,
            riskLevel := bm.riskLevel, requiresApproval := true }, ?_, rfl, rfl, ?_, ?_⟩
  · simp only [processTodo, hbm]
    rw [if_neg hsafe]
    rw [if_neg (by simpa using hen)]
    rw [if_neg (not_le.mpr happr)]
    simp [happr]
  · intro maxA st hlt
    rw [todoStep, if_neg (by omega)]
  · intro maxA st b hlt
    rw [todoStep, if_neg (by omega), todoStep, if_neg (by omega)]

/-- Witness for C10: confidence 0.75 between the thresholds 0.7 and 0.8. -/
def midMatch₀ : PatternMatch :=
  { pattern :=
      { id := "custom-mid", name := "Custom", confidence := 75,
        riskLevel := .low, actionType := .addComment, autoApprove := false,
        extractGroups := [] }
    confidence := 75
    actionType := .addComment
    extractedData := []
    riskLevel := .low }

/-- Witness for C10 at concrete inputs (safety 0.7, auto-approve 0.8). -/
theorem requires_approval_consumes_budget_witness :
    ∃ a, processTodo { safetyThreshold := 70, patternsEnabled := ["custom-mid"] }
        defaultSessionConfig "s" "todo" "f.ts" 3 [midMatch₀] true = (some a, [], false) ∧
      a.status = .requiresApproval ∧
      a.requiresApproval = true ∧
      (∀ (maxActionsPerSession : Nat) (st : LoopSt),
        st.actionsExecuted < maxActionsPerSession →
          todoStep maxActionsPerSession st (some a) =
            { actionsExecuted := st.actionsExecuted + 1, actions := st.actions ++ [a] }) ∧
      (∀ (maxActionsPerSession : Nat) (st : LoopSt) (b : PAction),
        st.actionsExecuted < maxActionsPerSession →
          todoStep maxActionsPerSession st (some a) = LoopSt.mk
              (todoStep maxActionsPerSession st (some b)).actionsExecuted
              (st.actions ++ [a])) :=
  requires_approval_consumes_budget _ defaultSessionConfig "s" "todo" "f.ts" 3
    [midMatch₀] true midMatch₀ rfl (by decide) (by decide) (by decide)

/-! ## AutoContinueService.executeAction with backup / restore (claim C2)

The state carries the action's target file, the backups in
`.mcp-backups` that match the file's basename, and a logical clock for
`Date.now()` (strictly larger than every existing backup timestamp; the
source encodes timestamps in the backup file name, and the
lexicographic `sort().reverse()` over the equal-width millisecond
digits picks the numerically largest one). -/

/-- Kernel-reducible character-level helpers for the executors
(`String.trim` / `String.splitOn` are byte-position based and do not
reduce in the kernel). -/
def isTrimWs (c : Char) : Bool :=
  c = ' ' || c = '\t' || c = '\n' || c = '\r' || c = '\x0b' || c = '\x0c'

/-- `String.prototype.trim` (ASCII whitespace suffices for the model). -/
def trimStr (s : String) : String :=
  ⟨((s.data.dropWhile isTrimWs).reverse.dropWhile isTrimWs).reverse⟩

/-- `content.split('\n')` on character lists. -/
def splitNlChars : List Char → List (List Char)
  | [] => [[]]
  | c :: cs =>
      let rest := splitNlChars cs
      if c = '\n' then [] :: rest
      else
        match rest with
        | [] => [[c]]
        | r :: rs => (c :: r) :: rs

/-- `content.split('\n')`. -/
def splitNl (s : String) : List String :=
  (splitNlChars s.data).map fun l => ⟨l⟩

/-- `lines.join('\n')`. -/
def joinNl (ls : List String) : String :=
  String.intercalate "\n" ls

/-- `lines.splice(i, 0, x)` for a non-negative index (JS clamps an index
beyond the length to an append; the service passes `lineNumber - 1` of a
1-based line). -/
def spliceInsert (lines : List String) (i : Nat) (x : String) : List String :=
  lines.take i ++ [x] ++ lines.drop i

/-- Trailing-whitespace characters of the `/\s+$/gm` replace (`$` in
multiline mode matches before each newline, so the run never contains
`'\n'` itself). -/
def isLineWs (c : Char) : Bool :=
  c = ' ' || c = '\t' || c = '\r' || c = '\x0b' || c = '\x0c'

/-- Strip trailing whitespace of one line. -/
def rstripLine (l : List Char) : List Char :=
  (l.reverse.dropWhile isLineWs).reverse

/-- `/\n{3,}/g → '\n\n'`: every maximal run of `k ≥ 3` newlines becomes
two; shorter runs are untouched (`min k 2` on a pending run of `k`). -/
def collapseGo : Nat → List Char → List Char
  | k, [] => List.replicate (min k 2) '\n'
  | k, c :: cs =>
      if c = '\n' then collapseGo (k + 1) cs
      else List.replicate (min k 2) '\n' ++ c :: collapseGo 0 cs

/-- The two regex replaces of `executeFixFormatting`. -/
def fixFormat (content : String) : String :=
  let stripped := joinNl ((splitNlChars content.data).map fun l => (⟨rstripLine l⟩ : String))
  ⟨collapseGo 0 stripped.data⟩

/-- The `insertIndex` scan of `executeAddImport`: advance past the
leading run of `import ` / `const ` lines; a later non-blank line breaks
once an index has been set. -/
def findInsertIndex (lines : List String) : Nat :=
  go lines 0 0
where
  go : List String → Nat → Nat → Nat
  | [], _, idx => idx
  | l :: ls, i, idx =>
      if l ≠ "" ∧ (jsStartsWith (trimStr l) "import " || jsStartsWith (trimStr l) "const ") then
        go ls (i + 1) (i + 1)
      else if l ≠ "" ∧ trimStr l ≠ "" ∧ idx > 0 then idx
      else go ls (i + 1) idx

/-- File-system state around one action: the target file's content, the
backups matching its basename (timestamp, content), and the clock. -/
structure FS where
  file : Option String
  backups : List (Nat × String)
  clock : Nat
  deriving DecidableEq, Repr

/-- `createBackup`: `fs.copy(filePath, backupPath)` throws when the file
is missing (`none`); otherwise a backup stamped with the current clock
is added. -/
def createBackup (fs : FS) : Option FS :=
  match fs.file with
  | none => none
  | some c => some { fs with backups := (fs.clock, c) :: fs.backups, clock := fs.clock + 1 }

/-- The backup selected by `sort().reverse()[0]`: the one with the
largest timestamp. -/
def latestBackup : List (Nat × String) → Option (Nat × String)
  | [] => none
  | b :: bs =>
      match latestBackup bs with
      | none => some b
      | some a => if a.1 < b.1 then some b else some a

/-- `restoreBackup`: copy the newest matching backup over the file and
delete it; a no-op when no backup (or no backup directory) exists. -/
def restoreBackup (fs : FS) : FS :=
  match latestBackup fs.backups with
  | none => fs
  | some (t, c) => { fs with file := some c, backups := fs.backups.erase (t, c) }

/-- One executor step of the `switch (action.type)`: `none` when the
executor throws (missing import module, unsupported action type),
`some none` when it writes nothing, `some (some c)` when it writes `c`. -/
def runExecutor (atype : ActionTy) (extracted : List (String × String))
    (todoContent : String) (lineNumber : Nat) (content : String) :
    Option (Option String) :=
  match atype with
  | .addComment =>
      let comment := jsOrS (extracted.lookup "description") ("// " ++ todoContent)
      some (some (joinNl (spliceInsert (splitNl content) (lineNumber - 1) comment)))
  | .fixFormatting =>
      let newContent := fixFormat content
      if content = newContent then some none else some (some newContent)
  | .updateDocumentation =>
      -- the documentation executor only logs a suggestion
      some none
  | .addImport =>
      match extracted.lookup "module" with
      | none => none
      | some m =>
          if m = "" then none
          else
            let src := match extracted.lookup "source" with
              | none => "undefined"
              | some s => s
            let importStatement := "import " ++ m ++ " from \x27" ++ src ++ "\x27;"
            let lines := splitNl content
            some (some (joinNl (spliceInsert lines (findInsertIndex lines) importStatement)))
  | _ =>
      -- `default: throw new FatalError('Unsupported action type')`
      none

/-- The failure path of `executeAction`'s catch block: restore the
backup when backups are enabled, then re-raise as `RecoverableError`
(the `true` flag). -/
def failPath (enableBackups : Bool) (s : FS) : FS × Bool :=
  match enableBackups with
  | true => (restoreBackup s, true)
  | false => (s, true)

/-- The file state after the executor's optional write. -/
def applyWrite (st1 : FS) : Option String → FS
  | some newContent => { st1 with file := some newContent }
  | none => st1

/-- Post-action validation (`validateSyntax` on the file) followed by the
optional git commit; both failures take the catch path. -/
def validateAndCommit (enableBackups enableGit : Bool)
    (validOracle : String → Bool) (commitOk : Bool) (st2 : FS) : FS × Bool :=
  match st2.file with
  | none => failPath enableBackups st2
  | some current =>
      if !(validOracle current) then failPath enableBackups st2
      else if enableGit && !commitOk then failPath enableBackups st2
      else (st2, false)

/-- `AutoContinueService.executeAction`: backup, execute, validate,
commit; every failure restores the backup (when enabled) before the
error is re-raised as `RecoverableError`.  The returned flag is `true`
exactly when the `RecoverableError` was thrown.  `validOracle` is the
external `validateSyntax` collaborator applied to the file's current
content; `commitOk` the external git outcome (only consulted when git
integration is on). -/
def executeAction (enableBackups enableGit : Bool)
    (validOracle : String → Bool) (commitOk : Bool)
    (atype : ActionTy) (extracted : List (String × String))
    (todoContent : String) (lineNumber : Nat) (st : FS) : FS × Bool :=
  match (match enableBackups with | true => createBackup st | false => some st) with
  | none => failPath enableBackups st
  | some st1 =>
      match st1.file with
      | none => failPath enableBackups st1
      | some content =>
          match runExecutor atype extracted todoContent lineNumber content with
          | none => failPath enableBackups st1
          | some write =>
              validateAndCommit enableBackups enableGit validOracle commitOk
                (applyWrite st1 write)

theorem latestBackup_mem (bs : List (Nat × String)) (a : Nat × String)
    (h : latestBackup bs = some a) : a ∈ bs := by
  induction bs with
  | nil => simp [latestBackup] at h
  | cons b rest ih =>
      rw [latestBackup] at h
      revert h
      cases hr : latestBackup rest with
      | none =>
          intro h
          have hba : b = a := by simpa using h
          exact hba ▸ List.mem_cons_self _ _
      | some a' =>
          intro h
          have h' : (if a'.1 < b.1 then some b else some a') = some a := h
          by_cases hlt : a'.1 < b.1
          · rw [if_pos hlt] at h'
            have hba : b = a := by simpa using h'
            exact hba ▸ List.mem_cons_self _ _
          · rw [if_neg hlt] at h'
            have haa : a' = a := by simpa using h'
            exact List.mem_cons_of_mem _ (ih (haa ▸ hr))

theorem latestBackup_cons_of_max (t : Nat) (c : String) (bs : List (Nat × String))
    (h : ∀ b ∈ bs, b.1 < t) : latestBackup ((t, c) :: bs) = some (t, c) := by
  rw [latestBackup]
  cases hr : latestBackup bs with
  | none => rfl
  | some a =>
      have ha : a ∈ bs := latestBackup_mem bs a hr
      show (if a.1 < (t, c).1 then some (t, c) else some a) = some (t, c)
      rw [if_pos (h a ha)]

theorem restoreBackup_cons_max (f : Option String) (t k : Nat) (c : String)
    (bs : List (Nat × String)) (h : ∀ b ∈ bs, b.1 < t) :
    restoreBackup ⟨f, (t, c) :: bs, k⟩ = ⟨some c, ((t, c) :: bs).erase (t, c), k⟩ := by
  rw [restoreBackup, latestBackup_cons_of_max t c bs h]

/-- C2: with backups enabled, whenever `executeAction` throws — executor
failure, unsupported action type, post-action validation failure, or git
commit failure — the target file's content after the throw equals its
content when the action began: the backup written before execution is
restored before the `RecoverableError` is re-raised.  (The clock
hypothesis says every pre-existing backup is older than `Date.now()`.) -/
theorem executeAction_rollback (enableGit : Bool)
    (validOracle : String → Bool) (commitOk : Bool)
    (atype : ActionTy) (extracted : List (String × String))
    (todoContent : String) (lineNumber : Nat) (st : FS) (c : String)
    (hfile : st.file = some c)
    (hclock : ∀ b ∈ st.backups, b.1 < st.clock)
    (hthrew : (executeAction true enableGit validOracle commitOk atype extracted
        todoContent lineNumber st).2 = true) :
    (executeAction true enableGit validOracle commitOk atype extracted
        todoContent lineNumber st).1.file = some c := by
  have hcb : createBackup st = some ⟨some c, (st.clock, c) :: st.backups, st.clock + 1⟩ := by
    rw [createBackup, hfile]
  have hre : ∀ f : Option String,
      restoreBackup ⟨f, (st.clock, c) :: st.backups, st.clock + 1⟩ =
        ⟨some c, ((st.clock, c) :: st.backups).erase (st.clock, c), st.clock + 1⟩ :=
    fun f => restoreBackup_cons_max f st.clock (st.clock + 1) c st.backups hclock
  revert hthrew
  cases hexec : runExecutor atype extracted todoContent lineNumber c with
  | none =>
      intro _
      simp only [executeAction, hcb, hexec, failPath]
      rw [hre]
  | some write =>
      cases write with
      | none =>
          simp only [executeAction, hcb, hexec, applyWrite, validateAndCommit]
          by_cases hv : validOracle c
          · rw [if_neg (by simp [hv])]
            by_cases hg : enableGit && !commitOk
            · rw [if_pos hg]
              intro _
              simp only [failPath]
              rw [hre]
            · rw [if_neg hg]
              intro hthrew
              simp at hthrew
          · rw [if_pos (by simp [hv])]
            intro _
            simp only [failPath]
            rw [hre]
      | some newContent =>
          simp only [executeAction, hcb, hexec, applyWrite, validateAndCommit]
          by_cases hv : validOracle newContent
          · rw [if_neg (by simp [hv])]
            by_cases hg : enableGit && !commitOk
            · rw [if_pos hg]
              intro _
              simp only [failPath]
              rw [hre]
            · rw [if_neg hg]
              intro hthrew
              simp at hthrew
          · rw [if_pos (by simp [hv])]
            intro _
            simp only [failPath]
            rw [hre]

/-- Witness for C2: an add-comment action writes the file, validation
rejects the result, and the original content is restored. -/
theorem executeAction_rollback_witness :
    (executeAction true false (fun _ => false) true .addComment []
        "todo" 1 { file := some "a\nb", backups := [], clock := 5 }).2 = true ∧
    (executeAction true false (fun _ => false) true .addComment []
        "todo" 1 { file := some "a\nb", backups := [], clock := 5 }).1.file = some "a\nb" :=
  ⟨by decide,
   executeAction_rollback false (fun _ => false) true .addComment [] "todo" 1
     { file := some "a\nb", backups := [], clock := 5 } "a\nb" rfl (by decide) (by decide)⟩

/-! ## Function implementors (claim C8)

`FunctionImplementor.generateGenericImplementation` (part_010) and
`EnhancedFunctionImplementor.createGenericTemplate`
(src/utils/enhancedFunctionImplementor.ts) both synthesize a generic
fallback body from the declared return type.  Literal braces inside the
synthesized strings are written with their escapes. -/

/-- `String.prototype.includes` on character lists. -/
def occursInChars : List Char → List Char → Bool
  | [], pat => pat.isEmpty
  | c :: rest, pat => jsStartsWith.go (c :: rest) pat || occursInChars rest pat

/-- `s.includes(pat)`. -/
def jsIncludes (s pat : String) : Bool :=
  occursInChars s.data pat.data

/-- An `ImplementationSuggestion` (reasoning string and dependency list
carried verbatim from the source literal). -/
structure ImplementationSuggestion where
  implementation : String
  confidence : Conf
  reasoning : String
  dependencies : List String
  deriving DecidableEq, Repr

/-- `FunctionImplementor.generateGenericImplementation`: the body is
keyed off the declared return type — note `boolean → return true` and no
array or Promise cases. -/
def generateGenericImplementation (name returnType : String) : ImplementationSuggestion :=
  let implementation :=
    if returnType = "void" then
      "\x7b\n    // TODO: Implement " ++ name ++ " logic\n    console.log(\x27" ++
        name ++ " called\x27);\n  \x7d"
    else if returnType = "boolean" then
      "\x7b\n    // TODO: Implement " ++ name ++ " logic\n    return true;\n  \x7d"
    else if returnType = "number" then
      "\x7b\n    // TODO: Implement " ++ name ++ " logic\n    return 0;\n  \x7d"
    else if returnType = "string" then
      "\x7b\n    // TODO: Implement " ++ name ++ " logic\n    return \x27\x27;\n  \x7d"
    else
      "\x7b\n    // TODO: Implement " ++ name ++
        " logic\n    throw new Error(\x27Not implemented\x27);\n  \x7d"
  { implementation := implementation
    confidence := 40
    reasoning := "Generic implementation based on return type"
    dependencies := [] }

/-- An `ImplementationTemplate` of the enhanced implementor (the
`variables` map is not consulted by any claim). -/
structure ImplementationTemplate where
  templateName : String
  pattern : String
  confidence : Conf
  deriving DecidableEq, Repr

/-- `EnhancedFunctionImplementor.createGenericTemplate`: the body always
opens with a "Not implemented" throw; a *dead* return statement keyed
off the declared return type follows it for non-void returns
(`boolean → false`, `number → 0`, `string → \'\'`, `includes('[]') → []`,
`includes('Promise') → Promise.resolve()`, else `null`). -/
def createGenericTemplate (name returnType : String)
    (indentTabs : Bool) (indentSize : Nat) (useSemicolons : Bool) :
    ImplementationTemplate :=
  let indent := if indentTabs then "\t" else String.mk (List.replicate indentSize ' ')
  let semi := if useSemicolons then ";" else ""
  let returnStatement :=
    if returnType ≠ "void" ∧ returnType ≠ "undefined" then
      if returnType = "boolean" then indent ++ "return false" ++ semi
      else if returnType = "number" then indent ++ "return 0" ++ semi
      else if returnType = "string" then indent ++ "return \x27\x27" ++ semi
      else if jsIncludes returnType "[]" then indent ++ "return []" ++ semi
      else if jsIncludes returnType "Promise" then indent ++ "return Promise.resolve()" ++ semi
      else indent ++ "return null" ++ semi
    else ""
  let implementation :=
    "\x7b\n" ++ indent ++ "// TODO: Implement " ++ name ++ " logic\n" ++
      indent ++ "throw new Error(\"Not implemented\")" ++ semi ++ "\n" ++
      (if returnStatement ≠ "" then "\n" ++ returnStatement else "") ++ "\n\x7d"
  { templateName := "Generic Pattern"
    pattern := implementation
    confidence := 50 }

theorem jsStartsWith_go_self_append (p t : List Char) :
    jsStartsWith.go (p ++ t) p = true := by
  induction p with
  | nil => cases t <;> rfl
  | cons c cs ih => simp [jsStartsWith.go, ih]

theorem occursInChars_append_left (xs ys pat : List Char)
    (h : occursInChars ys pat = true) : occursInChars (xs ++ ys) pat = true := by
  induction xs with
  | nil => simpa using h
  | cons x rest ih =>
      rw [List.cons_append, occursInChars]
      simp [ih]

theorem occursInChars_here (pat t : List Char) (hne : pat ≠ []) :
    occursInChars (pat ++ t) pat = true := by
  match pat, hne with
  | p :: ps, _ =>
      rw [List.cons_append, occursInChars, ← List.cons_append,
        jsStartsWith_go_self_append (p :: ps) t]
      simp

/-- The enhanced generic template always contains the "Not implemented"
throw, for every name, return type and code style. -/
theorem createGenericTemplate_contains_throw (name returnType : String)
    (indentTabs : Bool) (indentSize : Nat) (useSemicolons : Bool) :
    jsIncludes (createGenericTemplate name returnType indentTabs indentSize useSemicolons).pattern
      "throw new Error(\"Not implemented\")" = true := by
  have hda : ∀ a b : String, (a ++ b).data = a.data ++ b.data := fun _ _ => rfl
  simp only [createGenericTemplate, jsIncludes, hda, List.append_assoc]
  exact occursInChars_append_left _ _ _ (occursInChars_append_left _ _ _
    (occursInChars_append_left _ _ _ (occursInChars_append_left _ _ _
    (occursInChars_append_left _ _ _ (occursInChars_append_left _ _ _
    (occursInChars_here _ _ (by decide)))))))

/-- C8 counterexample: for a boolean-returning stub, the basic
implementor's generic fallback returns `true`, not `false` as claimed;
its body contains `return true` and no `return false`. -/
theorem generic_boolean_body_returns_true :
    jsIncludes (generateGenericImplementation "f" "boolean").implementation
      "return false" = false ∧
    jsIncludes (generateGenericImplementation "f" "boolean").implementation
      "return true" = true := by
  decide

/-- C8 amended: in `FunctionImplementor.generateGenericImplementation`
the body is keyed off the declared return type as `void → console.log`
(no return), `boolean → return true`, `number → return 0`,
`string → return \'\'`, and everything else — array and Promise types
included — a `'Not implemented'` throw; in
`EnhancedFunctionImplementor.createGenericTemplate` the body always
contains the `"Not implemented"` throw, followed (for non-void types) by
an unreachable return keyed off the declared type: `boolean → false`,
`number → 0`, `string → \'\'`, array types → `[]`, Promise types →
`Promise.resolve()`, everything else → `null`. -/
theorem generic_fallback_keyed_off_return_type :
    (∀ returnType : String, returnType ≠ "void" → returnType ≠ "boolean" →
      returnType ≠ "number" → returnType ≠ "string" →
      (generateGenericImplementation "f" returnType).implementation =
        "\x7b\n    // TODO: Implement f logic\n    throw new Error(\x27Not implemented\x27);\n  \x7d") ∧
    (generateGenericImplementation "f" "boolean").implementation =
      "\x7b\n    // TODO: Implement f logic\n    return true;\n  \x7d" ∧
    (generateGenericImplementation "f" "number").implementation =
      "\x7b\n    // TODO: Implement f logic\n    return 0;\n  \x7d" ∧
    (generateGenericImplementation "f" "string").implementation =
      "\x7b\n    // TODO: Implement f logic\n    return \x27\x27;\n  \x7d" ∧
    (generateGenericImplementation "f" "void").implementation =
      "\x7b\n    // TODO: Implement f logic\n    console.log(\x27f called\x27);\n  \x7d" ∧
    (∀ returnType : String,
      jsIncludes (createGenericTemplate "f" returnType false 2 true).pattern
        "throw new Error(\"Not implemented\")" = true) ∧
    jsIncludes (createGenericTemplate "f" "boolean" false 2 true).pattern
      "return false" = true ∧
    jsIncludes (createGenericTemplate "f" "number[]" false 2 true).pattern
      "return []" = true ∧
    jsIncludes (createGenericTemplate "f" "Promise<void>" false 2 true).pattern
      "return Promise.resolve()" = true ∧
    jsIncludes (createGenericTemplate "f" "Foo" false 2 true).pattern
      "return null" = true := by
  refine ⟨?_, rfl, rfl, rfl, rfl, ?_, by decide, by decide, by decide, by decide⟩
  · intro returnType h1 h2 h3 h4
    simp only [generateGenericImplementation]
    rw [if_neg h1, if_neg h2, if_neg h3, if_neg h4]
    decide
  · intro returnType
    exact createGenericTemplate_contains_throw "f" returnType false 2 true

/-- Witness for the amended C8 at an array return type: the basic
implementor's else-branch throw. -/
theorem generic_fallback_keyed_off_return_type_witness :
    (generateGenericImplementation "f" "string[]").implementation =
      "\x7b\n    // TODO: Implement f logic\n    throw new Error(\x27Not implemented\x27);\n  \x7d" ∧
    jsIncludes (createGenericTemplate "f" "string[]" false 2 true).pattern
      "throw new Error(\"Not implemented\")" = true :=
  ⟨generic_fallback_keyed_off_return_type.1 "string[]" (by decide) (by decide)
      (by decide) (by decide),
   (generic_fallback_keyed_off_return_type.2.2.2.2.2.1) "string[]"⟩

end TodoMcp
